import Mathlib

/-!
Shallow embedding of `reqtest` (src/reqtest/main.go), a diagnostic HTTP
tool with two subcommands:

* `send`: loops over power-of-two payload sizes from `2^start-step` to
  `2^end-step`, each iteration generating `size/2` random bytes,
  hex-encoding them, and issuing an HTTP PUT to the target address,
  stopping with an error on the first transport failure or non-200 status.
* `listen`: serves HTTP, with a handler that ignores GETs, optionally
  sleeps `resp-delay` before reading the request body, logs the number of
  bytes read, and answers 500 when reading the body fails.

Effectful library calls are modelled by an explicit environment:
`crypto/rand.Read` is a total stream of bytes (Go documents that it always
fills the buffer; its error path is dead on supported platforms),
`http.NewRequest` can fail only through the (per-address, hence constant)
URL parse error `urlErr`, and `http.Client.Do` is an oracle from requests
to either a transport error or a status code.  The listener's handler is a
pure function from an incoming request to the ordered trace of its
observable events (log lines, sleeping, reading the body, writing a
header).
-/

namespace Reqtest

/-- A byte, as produced by `crypto/rand.Read`. -/
abbrev Byte := Fin 256

/-- The digit table of Go `encoding/hex` (`hextable = "0123456789abcdef"`). -/
def hexDigits : List Char :=
  "0123456789abcdef".toList

/-- Encoding of one byte by `encoding/hex`: the digit of the high nibble
(`v >> 4`) followed by the digit of the low nibble (`v & 0x0f`). -/
def hexEncodeByte (b : Byte) : List Char :=
  [hexDigits.getD (b.val / 16) ' ', hexDigits.getD (b.val % 16) ' ']

/-- Go `hex.EncodeToString`: each input byte becomes two hex digits. -/
def hexEncode (bs : List Byte) : List Char :=
  bs.flatMap hexEncodeByte

/-- An outgoing HTTP request as built by `http.NewRequest` in `send`. -/
structure Request where
  method : String
  url : String
  body : List Char
  deriving DecidableEq, Repr

/-- The result of `http.Client.Do`: a transport error or a response,
of which `send` only inspects the status code. -/
inductive DoResult where
  | err (msg : String)
  | resp (statusCode : Nat)
  deriving DecidableEq, Repr

/-- The effectful context of `send`.  `rand n` is the content
`crypto/rand.Read` deposits in a buffer of length `n`; `urlErr` is the
error `http.NewRequest` reports for the target address (constant across
iterations since method and URL are); `doReq` is the network. -/
structure SendEnv where
  rand : Nat → List Byte
  urlErr : Option String
  doReq : Request → DoResult

/-- The request built in one iteration of the send loop for payload size
`bytesToSend`: a PUT to the address whose body is the hex encoding of
`bytesToSend/2` random bytes (`b := make([]byte, bytesToSend/2)`;
`rand.Read(b)`; `hex.EncodeToString(b)`). -/
def mkReq (env : SendEnv) (addr : String) (bytesToSend : Nat) : Request :=
  { method := "PUT", url := addr, body := hexEncode (env.rand (bytesToSend / 2)) }

/-- The text printed by `printUsage`. -/
def usageText : String :=
  "This is a tool that will listen for any requests and echo them to stdout.
It can also send requests of increasing sizes to a listener.

To listen:
[binary] listen <address>

To send:
[binary] send <address>"

/-- Observable outcome of `send`: lines printed to stdout, the trace of
issued requests (paired with the payload size of their iteration), and the
returned error, if any. -/
structure SendOutcome where
  printed : List String
  trace : List (Nat × Request)
  result : Except String Unit
  deriving Repr

/-- Resolution of the `start-step` flag (`sendStartStep`): a nil or
non-positive flag leaves the default `start = 1`; a positive value `≥ 32`
is an error; otherwise the value is taken (the Go `uint` conversion of a
positive `int` below 32 is the identity). -/
def startStepRes (sendStartStep : Option Int) : Except String Nat :=
  match sendStartStep with
  | some v =>
    if 0 < v then
      if 32 ≤ v then Except.error "start-step cannot be greater than 31"
      else Except.ok v.toNat
    else Except.ok 1
  | none => Except.ok 1

/-- Resolution of the `end-step` flag (`sendEndStep`), default `end = 25`,
mirroring `startStepRes`. -/
def endStepRes (sendEndStep : Option Int) : Except String Nat :=
  match sendEndStep with
  | some v =>
    if 0 < v then
      if 32 ≤ v then Except.error "end-step cannot be greater than 31"
      else Except.ok v.toNat
    else Except.ok 25
  | none => Except.ok 25

/-- The `for bytesToSend <= maxBytes` loop of `send`.  Each iteration
builds the request for the current size, issues it, and either stops with
the loop's error (transport failure or non-200 status) or doubles
`bytesToSend` (`bytesToSend <<= 1`) and continues.  The positivity
hypothesis records that the loop variable starts at `2^start ≥ 2` and only
doubles, which is what makes the Go loop terminate. -/
def sendLoop (env : SendEnv) (addr : String) (maxBytes bytesToSend : Nat)
    (hb : 0 < bytesToSend) : List (Nat × Request) × Except String Unit :=
  if h : bytesToSend ≤ maxBytes then
    match env.urlErr with
    | some m => ([], Except.error ("could make request: " ++ m))
    | none =>
      let req := mkReq env addr bytesToSend
      match env.doReq req with
      | DoResult.err m =>
        ([(bytesToSend, req)], Except.error ("could not execute request: " ++ m))
      | DoResult.resp code =>
        if code ≠ 200 then
          ([(bytesToSend, req)],
            Except.error ("did not get 200 response, got " ++ toString code))
        else
          let rest := sendLoop env addr maxBytes (bytesToSend * 2) (by omega)
          ((bytesToSend, req) :: rest.1, rest.2)
  else ([], Except.ok ())
termination_by maxBytes + 1 - bytesToSend
decreasing_by simp_wf; omega

/-- The `send` subcommand: check the argument count, resolve and validate
the step flags, reject `end < start`, then run the loop from
`bytesToSend = 1 << start` up to `maxBytes = 1 << end`. -/
def send (args : List String) (sendStartStep sendEndStep : Option Int)
    (env : SendEnv) : SendOutcome :=
  if args.length ≠ 1 then
    { printed := [usageText], trace := [],
      result := Except.error "send expects exactly 1 argument" }
  else
    match startStepRes sendStartStep with
    | Except.error e => { printed := [], trace := [], result := Except.error e }
    | Except.ok start =>
      match endStepRes sendEndStep with
      | Except.error e => { printed := [], trace := [], result := Except.error e }
      | Except.ok endStep =>
        if endStep < start then
          { printed := [], trace := [],
            result := Except.error "end-step cannot be less than start-step" }
        else
          let r := sendLoop env (args.headD "") (2 ^ endStep) (2 ^ start)
            (pow_pos (by omega) start)
          { printed := [], trace := r.1, result := r.2 }

/-- The full sequence of payload sizes the send loop walks through when
nothing fails: `2^s, 2^(s+1), ..., 2^e`. -/
def fullSizes (s e : Nat) : List Nat :=
  (List.range (e + 1 - s)).map (fun i => 2 ^ (s + i))

/-- List-driven restatement of the send loop: process the given payload
sizes in order, with the same per-iteration behavior as `sendLoop`.
`sendLoop` at `bytesToSend = 2^s`, `maxBytes = 2^e` refines to
`sendList` over `fullSizes s e` (theorem `sendLoop_eq_sendList`). -/
def sendList (env : SendEnv) (addr : String) :
    List Nat → List (Nat × Request) × Except String Unit
  | [] => ([], Except.ok ())
  | sz :: rest =>
    match env.urlErr with
    | some m => ([], Except.error ("could make request: " ++ m))
    | none =>
      let req := mkReq env addr sz
      match env.doReq req with
      | DoResult.err m =>
        ([(sz, req)], Except.error ("could not execute request: " ++ m))
      | DoResult.resp code =>
        if code ≠ 200 then
          ([(sz, req)], Except.error ("did not get 200 response, got " ++ toString code))
        else
          let r := sendList env addr rest
          ((sz, req) :: r.1, r.2)

/-- An incoming HTTP request as seen by the listener's handler: its method
and the outcome `io.ReadAll(r.Body)` would produce. -/
structure HttpRequest where
  method : String
  bodyResult : Except String (List Byte)

/-- Observable events of one run of the listener's handler, in order:
`log` output, sleeping (`time.Sleep`), starting to read the request body
(`io.ReadAll`), and writing a response header (`w.WriteHeader`). -/
inductive Event where
  | logged (msg : String)
  | slept (d : Int)
  | readBody
  | wroteHeader (code : Nat)
  deriving DecidableEq, Repr

/-- The delay log line (`log.Printf("waiting %s before reading/responding...", ...)`),
with the `time.Duration` rendered by its nanosecond count. -/
def waitingMsg (d : Int) : String :=
  "waiting " ++ toString d ++ " before reading/responding..."

/-- The handler `listen` registers for `/`, as its ordered event trace.
GET requests return immediately; otherwise the handler logs, sleeps when
the `resp-delay` flag (`none` models a nil pointer; durations are
nanosecond counts) is positive, reads the body, and either logs the byte
count read or logs the read error and writes status 500. -/
def listenHandler (respDelay : Option Int) (r : HttpRequest) : List Event :=
  if r.method = "GET" then []
  else
    [Event.logged "received request"] ++
    (match respDelay with
     | some d => if 0 < d then [Event.logged (waitingMsg d), Event.slept d] else []
     | none => []) ++
    [Event.readBody] ++
    (match r.bodyResult with
     | Except.error e =>
       [Event.logged ("error reading body: " ++ e ++ "\n"), Event.wroteHeader 500]
     | Except.ok bodyBytes =>
       [Event.logged ("read " ++ toString bodyBytes.length ++ " bytes from body\n")])

/-- The status codes a handler run wrote explicitly via `w.WriteHeader`. -/
def writtenHeaders (events : List Event) : List Nat :=
  events.filterMap (fun e =>
    match e with
    | Event.wroteHeader code => some code
    | _ => none)

/-- The status the client observes: the explicitly written header, or the
implicit 200 that `net/http` sends when the handler finishes without
calling `WriteHeader`. -/
def clientStatus (events : List Event) : Nat :=
  (writtenHeaders events).headD 200

/-- Effectful context of `listen`: the error `http.ListenAndServe`
eventually returns for a given address (it always returns a non-nil
error once the server stops). -/
structure ListenEnv where
  serveErr : String → String

/-- Observable outcome of `listen`: lines printed to stdout, the address a
server was started on (if any), and the returned error. -/
structure ListenOutcome where
  printed : List String
  serverAddr : Option String
  result : Except String Unit
  deriving Repr

/-- The `listen` subcommand: check the argument count, then register
`listenHandler` and run `http.ListenAndServe` on the given address. -/
def listen (args : List String) (env : ListenEnv) : ListenOutcome :=
  if args.length ≠ 1 then
    { printed := [usageText], serverAddr := none,
      result := Except.error "listen expects exactly 1 argument" }
  else
    { printed := [], serverAddr := some (args.headD ""),
      result := Except.error (env.serveErr (args.headD "")) }

/-- Success of the request the send loop issues for payload size `sz`:
`client.Do` returns a response with status 200. -/
def reqOk (env : SendEnv) (addr : String) (sz : Nat) : Prop :=
  env.doReq (mkReq env addr sz) = DoResult.resp 200

/-- A concrete send environment for evaluating the theorems: random bytes
are all zero, the address parses, and every request gets a 200 response. -/
def envOk : SendEnv :=
  { rand := fun n => List.replicate n 0,
    urlErr := none,
    doReq := fun _ => DoResult.resp 200 }

/-- A concrete GET request with an empty body. -/
def getReq : HttpRequest :=
  { method := "GET", bodyResult := Except.ok [] }

/-- A concrete PUT request whose body reads 12 zero bytes. -/
def putReqOk : HttpRequest :=
  { method := "PUT", bodyResult := Except.ok (List.replicate 12 0) }

/-- A concrete PUT request whose body read fails. -/
def putReqErr : HttpRequest :=
  { method := "PUT", bodyResult := Except.error "unexpected EOF" }

theorem hexEncode_length (bs : List Byte) : (hexEncode bs).length = 2 * bs.length := by
  induction bs with
  | nil => rfl
  | cons b bs ih =>
    simp only [hexEncode, List.flatMap_cons] at ih ⊢
    simp only [List.length_append, ih, hexEncodeByte, List.length_cons, List.length_nil,
      List.length_cons]
    omega

theorem hexDigits_getD_mem : ∀ i, i < 16 → hexDigits.getD i ' ' ∈ hexDigits := by decide

theorem hexEncodeByte_mem (b : Byte) : ∀ c ∈ hexEncodeByte b, c ∈ hexDigits := by
  intro c hc
  have hlt : b.val < 256 := b.isLt
  have h1 : b.val / 16 < 16 := by omega
  have h2 : b.val % 16 < 16 := by omega
  simp only [hexEncodeByte, List.mem_cons, List.not_mem_nil, or_false] at hc
  rcases hc with h | h <;> subst h
  · exact hexDigits_getD_mem _ h1
  · exact hexDigits_getD_mem _ h2

theorem hexEncode_mem (bs : List Byte) : ∀ c ∈ hexEncode bs, c ∈ hexDigits := by
  intro c hc
  simp only [hexEncode, List.mem_flatMap] at hc
  obtain ⟨b, _, hcb⟩ := hc
  exact hexEncodeByte_mem b c hcb

theorem fullSizes_self (s : Nat) : fullSizes s s = [2 ^ s] := by
  have h : s + 1 - s = 1 := by omega
  have hr : List.range 1 = [0] := rfl
  rw [fullSizes, h, hr]
  simp

theorem fullSizes_cons {s e : Nat} (h : s ≤ e) :
    fullSizes s e = 2 ^ s :: fullSizes (s + 1) e := by
  have h1 : e + 1 - s = (e + 1 - (s + 1)) + 1 := by omega
  rw [fullSizes, h1, List.range_succ_eq_map, List.map_cons, List.map_map]
  rw [fullSizes]
  refine congrArg₂ _ (by simp) ?_
  refine List.map_congr_left ?_
  intro i _
  simp only [Function.comp_apply]
  refine congrArg _ ?_
  omega

theorem fullSizes_length (s e : Nat) : (fullSizes s e).length = e + 1 - s := by
  simp [fullSizes]

theorem fullSizes_mem {s e sz : Nat} (h : sz ∈ fullSizes s e) :
    ∃ k, s ≤ k ∧ k ≤ e ∧ sz = 2 ^ k := by
  simp only [fullSizes, List.mem_map, List.mem_range] at h
  obtain ⟨i, hi, rfl⟩ := h
  exact ⟨s + i, by omega, by omega, rfl⟩

theorem sendLoop_congr (env : SendEnv) (addr : String) {m₁ m₂ b₁ b₂ : Nat}
    (hm : m₁ = m₂) (hb : b₁ = b₂) (h₁ : 0 < b₁) (h₂ : 0 < b₂) :
    sendLoop env addr m₁ b₁ h₁ = sendLoop env addr m₂ b₂ h₂ := by
  subst hm; subst hb; rfl

theorem sendLoop_eq_sendList_aux (env : SendEnv) (addr : String) :
    ∀ d s e, e = s + d → ∀ (hb : 0 < 2 ^ s),
      sendLoop env addr (2 ^ e) (2 ^ s) hb = sendList env addr (fullSizes s e) := by
  intro d
  induction d with
  | zero =>
    intro s e he hb
    obtain rfl : s = e := by omega
    rw [sendLoop, fullSizes_self, dif_pos (le_refl _)]
    cases hu : env.urlErr with
    | some m => simp [sendList, hu]
    | none =>
      simp only [sendList, hu]
      cases hd : env.doReq (mkReq env addr (2 ^ s)) with
      | err m => simp
      | resp code =>
        by_cases hc : code = 200
        · subst hc
          simp only [ne_eq, not_true_eq_false, if_false, ite_false]
          have hstop : sendLoop env addr (2 ^ s) (2 ^ s * 2) (by omega) =
              ([], Except.ok ()) := by
            rw [sendLoop, dif_neg (by omega)]
          rw [hstop]
        · simp [hc]
  | succ d ih =>
    intro s e he hb
    have hse : s ≤ e := by omega
    have hcond : 2 ^ s ≤ 2 ^ e := Nat.pow_le_pow_right (by omega) (by omega)
    rw [fullSizes_cons hse, sendLoop, dif_pos hcond]
    cases hu : env.urlErr with
    | some m => simp [sendList, hu]
    | none =>
      simp only [sendList, hu]
      cases hd : env.doReq (mkReq env addr (2 ^ s)) with
      | err m => simp
      | resp code =>
        by_cases hc : code = 200
        · subst hc
          simp only [ne_eq, not_true_eq_false, if_false, ite_false]
          have hstep : sendLoop env addr (2 ^ e) (2 ^ s * 2) (by omega) =
              sendList env addr (fullSizes (s + 1) e) := by
            have hcg : sendLoop env addr (2 ^ e) (2 ^ s * 2) (by omega) =
                sendLoop env addr (2 ^ e) (2 ^ (s + 1)) (pow_pos (by omega) _) :=
              sendLoop_congr env addr rfl (by rw [pow_succ]) _ _
            rw [hcg, ih (s + 1) e (by omega)]
          rw [hstep]
        · simp [hc]

theorem sendLoop_eq_sendList (env : SendEnv) (addr : String) {s e : Nat} (h : s ≤ e)
    (hb : 0 < 2 ^ s) :
    sendLoop env addr (2 ^ e) (2 ^ s) hb = sendList env addr (fullSizes s e) :=
  sendLoop_eq_sendList_aux env addr (e - s) s e (by omega) hb

theorem sendList_ok_iff (env : SendEnv) (addr : String) (hu : env.urlErr = none) :
    ∀ l : List Nat,
      (sendList env addr l).2 = Except.ok () ↔ ∀ sz ∈ l, reqOk env addr sz := by
  intro l
  induction l with
  | nil => simp [sendList]
  | cons sz rest ih =>
    simp only [sendList, hu]
    cases hd : env.doReq (mkReq env addr sz) with
    | err m => simp [reqOk, hd]
    | resp code =>
      by_cases hc : code = 200
      · subst hc
        simp only [ne_eq, not_true_eq_false, if_false, ite_false]
        simp only [List.mem_cons, forall_eq_or_imp]
        rw [← ih]
        constructor
        · intro h2
          exact ⟨hd, h2⟩
        · intro h2
          exact h2.2
      · simp only [ne_eq, hc, not_false_eq_true, if_true, ite_true]
        constructor
        · intro h2
          exact absurd h2 (by simp)
        · intro h2
          have : reqOk env addr sz := h2 sz (by simp)
          rw [reqOk, hd] at this
          simp at this
          omega

theorem sendList_trace_ok (env : SendEnv) (addr : String) (hu : env.urlErr = none) :
    ∀ l : List Nat, (∀ sz ∈ l, reqOk env addr sz) →
      (sendList env addr l).1 = l.map (fun sz => (sz, mkReq env addr sz)) := by
  intro l
  induction l with
  | nil => simp [sendList]
  | cons sz rest ih =>
    intro hok
    have h1 : reqOk env addr sz := hok sz (by simp)
    rw [reqOk] at h1
    simp only [sendList, hu, h1, ne_eq, not_true_eq_false, if_false, ite_false,
      List.map_cons]
    rw [ih (fun x hx => hok x (by simp [hx]))]

theorem sendList_trace_mem (env : SendEnv) (addr : String) :
    ∀ l : List Nat, ∀ p ∈ (sendList env addr l).1,
      p.2 = mkReq env addr p.1 ∧ p.1 ∈ l := by
  intro l
  induction l with
  | nil => simp [sendList]
  | cons sz rest ih =>
    intro p hp
    simp only [sendList] at hp
    cases hu : env.urlErr with
    | some m => rw [hu] at hp; simp at hp
    | none =>
      rw [hu] at hp
      cases hd : env.doReq (mkReq env addr sz) with
      | err m =>
        rw [hd] at hp
        simp at hp
        simp [hp]
      | resp code =>
        rw [hd] at hp
        by_cases hc : code = 200
        · subst hc
          simp only [ne_eq, not_true_eq_false, if_false, ite_false, List.mem_cons] at hp
          rcases hp with h | h
          · simp [h]
          · have := ih p h
            exact ⟨this.1, by simp [this.2]⟩
        · simp only [ne_eq, hc, not_false_eq_true, if_true, ite_true] at hp
          simp at hp
          simp [hp]

theorem sendList_trace_take (env : SendEnv) (addr : String) :
    ∀ l : List Nat, ∃ k, ((sendList env addr l).1).map Prod.fst = l.take k := by
  intro l
  induction l with
  | nil => exact ⟨0, by simp [sendList]⟩
  | cons sz rest ih =>
    simp only [sendList]
    cases hu : env.urlErr with
    | some m => exact ⟨0, by simp⟩
    | none =>
      cases hd : env.doReq (mkReq env addr sz) with
      | err m => exact ⟨1, by simp⟩
      | resp code =>
        by_cases hc : code = 200
        · subst hc
          obtain ⟨k, hk⟩ := ih
          refine ⟨k + 1, ?_⟩
          simp only [ne_eq, not_true_eq_false, if_false, ite_false, List.map_cons,
            List.take_succ_cons, hk]
        · exact ⟨1, by simp [hc]⟩

theorem sendList_stops (env : SendEnv) (addr : String) (hu : env.urlErr = none) :
    ∀ l : List Nat, ∀ m : String, (sendList env addr l).2 = Except.error m →
      ∃ k, k < l.length ∧ ((sendList env addr l).1).map Prod.fst = l.take (k + 1) ∧
        (∀ sz ∈ l.take k, reqOk env addr sz) ∧ ¬ reqOk env addr (l.getD k 0) := by
  intro l
  induction l with
  | nil => intro m hm; simp [sendList] at hm
  | cons sz rest ih =>
    intro m hm
    simp only [sendList, hu] at hm ⊢
    cases hd : env.doReq (mkReq env addr sz) with
    | err m' =>
      refine ⟨0, by simp, by simp [hd], by simp, ?_⟩
      simp only [List.getD_cons_zero, reqOk, hd]
      simp
    | resp code =>
      by_cases hc : code = 200
      · subst hc
        rw [hd] at hm
        simp only [ne_eq, not_true_eq_false, if_false, ite_false] at hm ⊢
        obtain ⟨k, hk1, hk2, hk3, hk4⟩ := ih m hm
        refine ⟨k + 1, by simp; omega, ?_, ?_, ?_⟩
        · simp only [hd, ne_eq, not_true_eq_false, if_false, ite_false, List.map_cons,
            List.take_succ_cons, hk2]
        · intro x hx
          simp only [List.take_succ_cons, List.mem_cons] at hx
          rcases hx with h | h
          · subst h
            rw [reqOk, hd]
          · exact hk3 x h
        · simpa using hk4
      · refine ⟨0, by simp, by simp [hd, hc], by simp, ?_⟩
        simp only [List.getD_cons_zero, reqOk, hd]
        simp [hc]

theorem send_valid_eq (env : SendEnv) (args : List String) (ha : args.length = 1)
    (s e : Int) (h1 : 0 < s) (h2 : s ≤ e) (h3 : e < 32) :
    send args (some s) (some e) env =
      { printed := [],
        trace := (sendList env (args.headD "") (fullSizes s.toNat e.toNat)).1,
        result := (sendList env (args.headD "") (fullSizes s.toNat e.toNat)).2 } := by
  have hs : startStepRes (some s) = Except.ok s.toNat := by
    rw [startStepRes, if_pos h1, if_neg (by omega)]
  have he : endStepRes (some e) = Except.ok e.toNat := by
    rw [endStepRes, if_pos (by omega), if_neg (by omega)]
  have hle : s.toNat ≤ e.toNat := by omega
  rw [send, if_neg (by omega), hs, he]
  dsimp only
  rw [if_neg (by omega)]
  rw [sendLoop_eq_sendList env (args.headD "") hle]

theorem writtenHeaders_append (a b : List Event) :
    writtenHeaders (a ++ b) = writtenHeaders a ++ writtenHeaders b := by
  simp [writtenHeaders]

theorem writtenHeaders_listenHandler (d : Option Int) (r : HttpRequest)
    (hm : r.method ≠ "GET") :
    writtenHeaders (listenHandler d r) =
      match r.bodyResult with
      | Except.error _ => [500]
      | Except.ok _ => [] := by
  rw [listenHandler.eq_def, if_neg hm]
  rw [writtenHeaders_append, writtenHeaders_append, writtenHeaders_append]
  have hd : writtenHeaders
      (match d with
       | some dd => if 0 < dd then [Event.logged (waitingMsg dd), Event.slept dd] else []
       | none => []) = [] := by
    cases d with
    | none => rfl
    | some dd =>
      by_cases h : 0 < dd
      · simp [writtenHeaders, h]
      · simp [writtenHeaders, h]
  rw [hd]
  cases hb : r.bodyResult with
  | error e => simp [writtenHeaders]
  | ok bs => simp [writtenHeaders]

/-- C9: in listen mode, a request whose method is GET is ignored: the
handler produces no events at all — nothing is logged, no `resp-delay`
sleep happens, and the request body is never read. -/
theorem C9_listen_get_ignored (d : Option Int) (r : HttpRequest)
    (hm : r.method = "GET") :
    listenHandler d r = [] := by
  rw [listenHandler.eq_def, if_pos hm]

theorem C9_listen_get_ignored_witness :
    getReq.method = "GET" ∧ listenHandler (some 5) getReq = [] :=
  ⟨rfl, C9_listen_get_ignored (some 5) getReq rfl⟩

/-- C4: in listen mode, for every non-GET request whose body is read
successfully, the handler logs the number of bytes of the request body
that were read. -/
theorem C4_listen_logs_bytes (d : Option Int) (r : HttpRequest)
    (hm : r.method ≠ "GET") (bs : List Byte) (hb : r.bodyResult = Except.ok bs) :
    Event.logged ("read " ++ toString bs.length ++ " bytes from body\n") ∈
      listenHandler d r := by
  rw [listenHandler.eq_def, if_neg hm, hb]
  simp

theorem C4_listen_logs_bytes_witness :
    putReqOk.method ≠ "GET" ∧
    putReqOk.bodyResult = Except.ok (List.replicate 12 0) ∧
    Event.logged ("read " ++ toString (List.replicate 12 (0 : Byte)).length
        ++ " bytes from body\n") ∈ listenHandler none putReqOk :=
  ⟨by decide, rfl, C4_listen_logs_bytes none putReqOk (by decide) _ rfl⟩

/-- C5: in listen mode, for a non-GET request the handler sleeps for the
`resp-delay` duration if and only if the flag is strictly positive; when
it sleeps, the sleep happens after the initial log line and before the
body is read; and with the default `resp-delay` of zero no sleep occurs. -/
theorem C5_listen_delay (d : Int) (r : HttpRequest) (hm : r.method ≠ "GET") :
    (Event.slept d ∈ listenHandler (some d) r ↔ 0 < d) ∧
    (0 < d → ∃ tail, listenHandler (some d) r =
      [Event.logged "received request", Event.logged (waitingMsg d),
        Event.slept d, Event.readBody] ++ tail) ∧
    (∀ d' : Int, Event.slept d' ∉ listenHandler (some 0) r) := by
  have hform : ∀ dd : Int, listenHandler (some dd) r =
      [Event.logged "received request"] ++
      (if 0 < dd then [Event.logged (waitingMsg dd), Event.slept dd] else []) ++
      [Event.readBody] ++
      (match r.bodyResult with
       | Except.error e =>
         [Event.logged ("error reading body: " ++ e ++ "\n"), Event.wroteHeader 500]
       | Except.ok bodyBytes =>
         [Event.logged ("read " ++ toString bodyBytes.length ++ " bytes from body\n")]) := by
    intro dd
    rw [listenHandler.eq_def, if_neg hm]
  refine ⟨⟨?_, ?_⟩, ?_, ?_⟩
  · intro hmem
    by_contra hd
    rw [hform d, if_neg hd] at hmem
    cases hb : r.bodyResult with
    | error e => rw [hb] at hmem; simp at hmem
    | ok bs => rw [hb] at hmem; simp at hmem
  · intro hd
    rw [hform d, if_pos hd]
    simp
  · intro hd
    rw [hform d, if_pos hd]
    cases hb : r.bodyResult with
    | error e =>
      refine ⟨[Event.logged ("error reading body: " ++ e ++ "\n"),
        Event.wroteHeader 500], ?_⟩
      simp
    | ok bs =>
      refine ⟨[Event.logged ("read " ++ toString bs.length ++ " bytes from body\n")], ?_⟩
      simp
  · intro d'
    intro hmem
    rw [hform 0, if_neg (by omega)] at hmem
    cases hb : r.bodyResult with
    | error e => rw [hb] at hmem; simp at hmem
    | ok bs => rw [hb] at hmem; simp at hmem

theorem C5_listen_delay_witness :
    putReqOk.method ≠ "GET" ∧
    ((Event.slept 7 ∈ listenHandler (some 7) putReqOk ↔ 0 < (7 : Int)) ∧
    (0 < (7 : Int) → ∃ tail, listenHandler (some 7) putReqOk =
      [Event.logged "received request", Event.logged (waitingMsg 7),
        Event.slept 7, Event.readBody] ++ tail) ∧
    (∀ d' : Int, Event.slept d' ∉ listenHandler (some 0) putReqOk)) :=
  ⟨by decide, C5_listen_delay 7 putReqOk (by decide)⟩

/-- C10: in listen mode (for a non-GET request) the handler writes status
500 if and only if reading the request body fails; on a successful read it
writes no status at all, so the client sees the implicit 200. -/
theorem C10_listen_500 (d : Option Int) (r : HttpRequest) (hm : r.method ≠ "GET") :
    (writtenHeaders (listenHandler d r) = [500] ↔
      ∃ e, r.bodyResult = Except.error e) ∧
    (∀ bs, r.bodyResult = Except.ok bs →
      writtenHeaders (listenHandler d r) = [] ∧
      clientStatus (listenHandler d r) = 200) := by
  have hw := writtenHeaders_listenHandler d r hm
  constructor
  · constructor
    · intro h500
      cases hb : r.bodyResult with
      | error e => exact ⟨e, rfl⟩
      | ok bs => rw [hb] at hw; rw [hw] at h500; simp at h500
    · intro ⟨e, he⟩
      rw [he] at hw
      exact hw
  · intro bs hb
    rw [hb] at hw
    exact ⟨hw, by rw [clientStatus, hw]; rfl⟩

theorem C10_listen_500_witness :
    putReqErr.method ≠ "GET" ∧
    ((writtenHeaders (listenHandler none putReqErr) = [500] ↔
      ∃ e, putReqErr.bodyResult = Except.error e) ∧
    (∀ bs, putReqErr.bodyResult = Except.ok bs →
      writtenHeaders (listenHandler none putReqErr) = [] ∧
      clientStatus (listenHandler none putReqErr) = 200)) :=
  ⟨by decide, C10_listen_500 none putReqErr (by decide)⟩

theorem fullSizes_chain (s e : Nat) :
    List.Chain' (fun a b => b = 2 * a) (fullSizes s e) := by
  rw [List.chain'_iff_get]
  intro i hi
  simp only [fullSizes, List.length_map, List.length_range] at hi
  simp only [fullSizes, List.get_eq_getElem, List.getElem_map, List.getElem_range]
  have h : s + (i + 1) = (s + i) + 1 := by omega
  rw [h, pow_succ]
  ring

theorem fullSizes_getLast (s e : Nat) (h : s ≤ e) :
    (fullSizes s e).getLast? = some (2 ^ e) := by
  rw [List.getLast?_eq_getElem? _, fullSizes_length s e]
  have hidx : e + 1 - s - 1 = e - s := by omega
  rw [hidx, fullSizes, List.getElem?_map, List.getElem?_range (by omega)]
  have h2 : s + (e - s) = e := by omega
  simp [h2]

/-- C1: in send mode, under a valid configuration (`0 < start ≤ end < 32`,
every request answered 200), the payload sizes sent are exactly
`2^start, 2^(start+1), ..., 2^end`, each twice the previous one; with the
default flag values (`start-step = 1`, `end-step = 25`) the sizes run from
2 bytes up to `2^25` bytes. -/
theorem C1_send_sizes (env : SendEnv) (hu : env.urlErr = none)
    (hok : ∀ r, env.doReq r = DoResult.resp 200)
    (args : List String) (ha : args.length = 1)
    (s e : Int) (h1 : 0 < s) (h2 : s ≤ e) (h3 : e < 32) :
    ((send args (some s) (some e) env).trace.map Prod.fst
      = fullSizes s.toNat e.toNat) ∧
    List.Chain' (fun a b => b = 2 * a)
      ((send args (some s) (some e) env).trace.map Prod.fst) ∧
    ((send args (some 1) (some 25) env).trace.map Prod.fst = fullSizes 1 25) ∧
    (fullSizes 1 25).head? = some 2 ∧
    (fullSizes 1 25).getLast? = some (2 ^ 25) := by
  have hmain : ∀ s' e' : Int, 0 < s' → s' ≤ e' → e' < 32 →
      (send args (some s') (some e') env).trace.map Prod.fst
        = fullSizes s'.toNat e'.toNat := by
    intro s' e' h1' h2' h3'
    rw [send_valid_eq env args ha s' e' h1' h2' h3']
    dsimp only
    rw [sendList_trace_ok env (args.headD "") hu _
      (by intro sz _; rw [reqOk]; exact hok _)]
    simp [List.map_map, Function.comp_def]
  refine ⟨hmain s e h1 h2 h3, ?_, hmain 1 25 (by omega) (by omega) (by omega), ?_, ?_⟩
  · rw [hmain s e h1 h2 h3]
    exact fullSizes_chain _ _
  · rw [fullSizes_cons (by omega : (1 : Nat) ≤ 25)]
    rfl
  · exact fullSizes_getLast 1 25 (by omega)

theorem C1_send_sizes_witness :
    (envOk.urlErr = none) ∧ (∀ r, envOk.doReq r = DoResult.resp 200) ∧
    (["http://localhost:8080"].length = 1) ∧
    (0 < (1 : Int)) ∧ ((1 : Int) ≤ (3 : Int)) ∧ ((3 : Int) < 32) ∧
    (((send ["http://localhost:8080"] (some 1) (some 3) envOk).trace.map Prod.fst
      = fullSizes (1 : Int).toNat (3 : Int).toNat) ∧
    List.Chain' (fun a b => b = 2 * a)
      ((send ["http://localhost:8080"] (some 1) (some 3) envOk).trace.map Prod.fst) ∧
    ((send ["http://localhost:8080"] (some 1) (some 25) envOk).trace.map Prod.fst
      = fullSizes 1 25) ∧
    (fullSizes 1 25).head? = some 2 ∧
    (fullSizes 1 25).getLast? = some (2 ^ 25)) :=
  ⟨rfl, fun _ => rfl, rfl, by decide, by decide, by decide,
    C1_send_sizes envOk rfl (fun _ => rfl) ["http://localhost:8080"] rfl
      1 3 (by decide) (by decide) (by decide)⟩

/-- C2: each step of the send loop with payload size `n` issues a PUT to
the given address whose body is the hex encoding of the `n/2` random bytes
generated for that step; the body therefore has length exactly `n` and
consists only of hexadecimal characters.  (`rand` filling its buffer is Go's
documented behavior of `crypto/rand.Read`.) -/
theorem C2_send_bodies (env : SendEnv) (hrand : ∀ n, (env.rand n).length = n)
    (args : List String) (ha : args.length = 1)
    (s e : Int) (h1 : 0 < s) (h2 : s ≤ e) (h3 : e < 32) :
    ∀ p ∈ (send args (some s) (some e) env).trace,
      p.2.method = "PUT" ∧ p.2.url = args.headD "" ∧
      p.2.body = hexEncode (env.rand (p.1 / 2)) ∧
      p.2.body.length = p.1 ∧ ∀ c ∈ p.2.body, c ∈ hexDigits := by
  intro p hp
  rw [send_valid_eq env args ha s e h1 h2 h3] at hp
  dsimp only at hp
  obtain ⟨hreq, hmem⟩ := sendList_trace_mem env (args.headD "") _ p hp
  obtain ⟨k, hk1, hk2, hsz⟩ := fullSizes_mem hmem
  have hk : 1 ≤ k := le_trans (by omega : 1 ≤ s.toNat) hk1
  obtain ⟨j, rfl⟩ : ∃ j, k = j + 1 := ⟨k - 1, by omega⟩
  have hpow : (2 : Nat) ^ (j + 1) = 2 ^ j * 2 := pow_succ 2 j
  have hbody : p.2.body = hexEncode (env.rand (p.1 / 2)) := by rw [hreq]; rfl
  refine ⟨by rw [hreq]; rfl, by rw [hreq]; rfl, hbody, ?_, ?_⟩
  · rw [hbody, hexEncode_length, hrand, hsz, hpow]
    omega
  · intro c hc
    rw [hbody] at hc
    exact hexEncode_mem _ c hc

theorem C2_send_bodies_witness :
    (∀ n, (envOk.rand n).length = n) ∧
    (["http://localhost:8080"].length = 1) ∧
    (0 < (1 : Int)) ∧ ((1 : Int) ≤ (3 : Int)) ∧ ((3 : Int) < 32) ∧
    (∀ p ∈ (send ["http://localhost:8080"] (some 1) (some 3) envOk).trace,
      p.2.method = "PUT" ∧ p.2.url = (["http://localhost:8080"] : List String).headD "" ∧
      p.2.body = hexEncode (envOk.rand (p.1 / 2)) ∧
      p.2.body.length = p.1 ∧ ∀ c ∈ p.2.body, c ∈ hexDigits) :=
  ⟨fun n => by simp [envOk], rfl, by decide, by decide, by decide,
    C2_send_bodies envOk (fun n => by simp [envOk]) ["http://localhost:8080"] rfl
      1 3 (by decide) (by decide) (by decide)⟩

/-- C3: send succeeds (returns nil) exactly when every request in the full
power-of-two sequence is answered with status 200; the sizes actually sent
always form a prefix of that sequence; and on an error the loop stopped at
the first failing request: everything strictly before it succeeded and the
failing size is included as the last element sent. -/
theorem C3_send_error_iff (env : SendEnv) (hu : env.urlErr = none)
    (args : List String) (ha : args.length = 1)
    (s e : Int) (h1 : 0 < s) (h2 : s ≤ e) (h3 : e < 32) :
    ((send args (some s) (some e) env).result = Except.ok () ↔
      ∀ sz ∈ fullSizes s.toNat e.toNat, reqOk env (args.headD "") sz) ∧
    (∃ k, (send args (some s) (some e) env).trace.map Prod.fst
        = (fullSizes s.toNat e.toNat).take k) ∧
    (∀ m, (send args (some s) (some e) env).result = Except.error m →
      ∃ k, k < (fullSizes s.toNat e.toNat).length ∧
        (send args (some s) (some e) env).trace.map Prod.fst
          = (fullSizes s.toNat e.toNat).take (k + 1) ∧
        (∀ sz ∈ (fullSizes s.toNat e.toNat).take k, reqOk env (args.headD "") sz) ∧
        ¬ reqOk env (args.headD "") ((fullSizes s.toNat e.toNat).getD k 0)) := by
  rw [send_valid_eq env args ha s e h1 h2 h3]
  dsimp only
  exact ⟨sendList_ok_iff env _ hu _, sendList_trace_take env _ _,
    fun m hm => sendList_stops env _ hu _ m hm⟩

theorem C3_send_error_iff_witness :
    (envOk.urlErr = none) ∧ (["http://localhost:8080"].length = 1) ∧
    (0 < (1 : Int)) ∧ ((1 : Int) ≤ (3 : Int)) ∧ ((3 : Int) < 32) ∧
    (((send ["http://localhost:8080"] (some 1) (some 3) envOk).result = Except.ok () ↔
      ∀ sz ∈ fullSizes (1 : Int).toNat (3 : Int).toNat,
        reqOk envOk ((["http://localhost:8080"] : List String).headD "") sz) ∧
    (∃ k, (send ["http://localhost:8080"] (some 1) (some 3) envOk).trace.map Prod.fst
        = (fullSizes (1 : Int).toNat (3 : Int).toNat).take k) ∧
    (∀ m, (send ["http://localhost:8080"] (some 1) (some 3) envOk).result
        = Except.error m →
      ∃ k, k < (fullSizes (1 : Int).toNat (3 : Int).toNat).length ∧
        (send ["http://localhost:8080"] (some 1) (some 3) envOk).trace.map Prod.fst
          = (fullSizes (1 : Int).toNat (3 : Int).toNat).take (k + 1) ∧
        (∀ sz ∈ (fullSizes (1 : Int).toNat (3 : Int).toNat).take k,
          reqOk envOk ((["http://localhost:8080"] : List String).headD "") sz) ∧
        ¬ reqOk envOk ((["http://localhost:8080"] : List String).headD "")
          ((fullSizes (1 : Int).toNat (3 : Int).toNat).getD k 0))) :=
  ⟨rfl, rfl, by decide, by decide, by decide,
    C3_send_error_iff envOk rfl ["http://localhost:8080"] rfl
      1 3 (by decide) (by decide) (by decide)⟩

/-- C6: both subcommands require exactly one positional address argument:
for every argument list whose length is not 1, `listen` and `send` print
the usage text and return an error, without starting a server and without
issuing any request. -/
theorem C6_arg_check (args : List String) (h : args.length ≠ 1)
    (envL : ListenEnv) (envS : SendEnv) (sf ef : Option Int) :
    listen args envL =
      { printed := [usageText], serverAddr := none,
        result := Except.error "listen expects exactly 1 argument" } ∧
    send args sf ef envS =
      { printed := [usageText], trace := [],
        result := Except.error "send expects exactly 1 argument" } :=
  ⟨by rw [listen, if_pos h], by rw [send, if_pos h]⟩

theorem C6_arg_check_witness :
    (([] : List String).length ≠ 1) ∧
    (listen [] { serveErr := fun _ => "closed" } =
      { printed := [usageText], serverAddr := none,
        result := Except.error "listen expects exactly 1 argument" } ∧
    send [] (some 1) (some 25) envOk =
      { printed := [usageText], trace := [],
        result := Except.error "send expects exactly 1 argument" }) :=
  ⟨by decide, C6_arg_check [] (by decide) { serveErr := fun _ => "closed" } envOk
    (some 1) (some 25)⟩

/-- C7: for every valid configuration (`0 < start ≤ end < 32`) the send
loop terminates (the model of the loop is total by its termination
measure), and when every request succeeds it performs exactly
`end - start + 1` iterations, one request each. -/
theorem C7_send_iterations (env : SendEnv) (hu : env.urlErr = none)
    (hok : ∀ r, env.doReq r = DoResult.resp 200)
    (args : List String) (ha : args.length = 1)
    (s e : Int) (h1 : 0 < s) (h2 : s ≤ e) (h3 : e < 32) :
    (send args (some s) (some e) env).trace.length = e.toNat - s.toNat + 1 := by
  rw [send_valid_eq env args ha s e h1 h2 h3]
  dsimp only
  rw [sendList_trace_ok env (args.headD "") hu _
    (by intro sz _; rw [reqOk]; exact hok _)]
  rw [List.length_map, fullSizes_length]
  omega

theorem C7_send_iterations_witness :
    (envOk.urlErr = none) ∧ (∀ r, envOk.doReq r = DoResult.resp 200) ∧
    (["http://localhost:8080"].length = 1) ∧
    (0 < (1 : Int)) ∧ ((1 : Int) ≤ (3 : Int)) ∧ ((3 : Int) < 32) ∧
    (send ["http://localhost:8080"] (some 1) (some 3) envOk).trace.length
      = (3 : Int).toNat - (1 : Int).toNat + 1 :=
  ⟨rfl, fun _ => rfl, rfl, by decide, by decide, by decide,
    C7_send_iterations envOk rfl (fun _ => rfl) ["http://localhost:8080"] rfl
      1 3 (by decide) (by decide) (by decide)⟩

/-- C8: send validates its step flags before issuing any request: a
positive `start-step` or `end-step` of 32 or more is rejected with an
error, a resolved end step strictly below the resolved start step is
rejected with an error, and a zero or negative flag value is silently
replaced by its default (1 for start, 25 for end) instead of being
rejected. -/
theorem C8_flag_validation (args : List String) (ha : args.length = 1) (env : SendEnv)
    (s1 : Int) (hs1 : 32 ≤ s1) (ef : Option Int)
    (e2 : Int) (he2 : 32 ≤ e2)
    (s3 e3 : Int) (he3 : 0 < e3) (h33 : e3 < s3) (h34 : s3 < 32)
    (s4 e4 : Int) (hs4 : s4 ≤ 0) (he4 : e4 ≤ 0) :
    send args (some s1) ef env =
      { printed := [], trace := [],
        result := Except.error "start-step cannot be greater than 31" } ∧
    send args none (some e2) env =
      { printed := [], trace := [],
        result := Except.error "end-step cannot be greater than 31" } ∧
    send args (some s3) (some e3) env =
      { printed := [], trace := [],
        result := Except.error "end-step cannot be less than start-step" } ∧
    send args (some s4) (some e4) env = send args none none env := by
  have ha' : ¬ args.length ≠ 1 := by omega
  refine ⟨?_, ?_, ?_, ?_⟩
  · have e1 : startStepRes (some s1) = Except.error "start-step cannot be greater than 31" := by
      rw [startStepRes, if_pos (by omega), if_pos hs1]
    rw [send, if_neg ha', e1]
  · have e0 : startStepRes none = Except.ok 1 := rfl
    have e1 : endStepRes (some e2) = Except.error "end-step cannot be greater than 31" := by
      rw [endStepRes, if_pos (by omega), if_pos he2]
    rw [send, if_neg ha', e0, e1]
  · have e1 : startStepRes (some s3) = Except.ok s3.toNat := by
      rw [startStepRes, if_pos (by omega), if_neg (by omega)]
    have e2' : endStepRes (some e3) = Except.ok e3.toNat := by
      rw [endStepRes, if_pos he3, if_neg (by omega)]
    rw [send, if_neg ha', e1, e2']
    dsimp only
    rw [if_pos (by omega)]
  · have e1 : startStepRes (some s4) = startStepRes none := by
      rw [startStepRes, if_neg (by omega)]
      rfl
    have e2' : endStepRes (some e4) = endStepRes none := by
      rw [endStepRes, if_neg (by omega)]
      rfl
    simp only [send]
    rw [e1, e2']

theorem C8_flag_validation_witness :
    ((["http://localhost:8080"] : List String).length = 1) ∧
    (32 ≤ (40 : Int)) ∧ (32 ≤ (45 : Int)) ∧
    (0 < (3 : Int)) ∧ ((3 : Int) < (5 : Int)) ∧ ((5 : Int) < 32) ∧
    ((-1 : Int) ≤ 0) ∧ ((0 : Int) ≤ 0) ∧
    (send ["http://localhost:8080"] (some 40) (some 25) envOk
      = { printed := [], trace := [],
          result := Except.error "start-step cannot be greater than 31" } ∧
    send ["http://localhost:8080"] none (some 45) envOk
      = { printed := [], trace := [],
          result := Except.error "end-step cannot be greater than 31" } ∧
    send ["http://localhost:8080"] (some 5) (some 3) envOk
      = { printed := [], trace := [],
          result := Except.error "end-step cannot be less than start-step" } ∧
    send ["http://localhost:8080"] (some (-1)) (some 0) envOk
      = send ["http://localhost:8080"] none none envOk) :=
  ⟨rfl, by decide, by decide, by decide, by decide, by decide, by decide, by decide,
    C8_flag_validation ["http://localhost:8080"] rfl envOk
      40 (by decide) (some 25) 45 (by decide) 5 3 (by decide) (by decide) (by decide)
      (-1) 0 (by decide) (by decide)⟩

end Reqtest
